import Mathlib

/-!
Verification development for `generate_topology.py`, an LLDP-based network
topology generator.  The core pipeline is embedded shallowly:

  * `if_fullname` / `if_shortname` — the interface-name normalizer
    (Python `str.startswith` / `str.replace` are modelled on `List Char`);
  * `normalize_result` — the collection-result normalizer (Python dicts are
    modelled as insertion-ordered association lists with in-place update);
  * `extract_lldp_details` — the topology extractor (the fallible
    `remote_system_enable_capab[0]` access makes it return `Option`);
  * `generate_topology_json` — the topology builder (the fallible
    `host_id_map[...]` lookup makes it return `Option`);
  * `get_topology_diff` — the diff engine.
-/

/-- Python `s.replace(k, v)` on character lists: replace every non-overlapping
occurrence of `k` by `v`, scanning left to right.  The `Nat` argument is the
number of characters of a just-matched pattern still to be consumed; the
scan is structural on the character list.  (With `k = []` Python inserts `v`
between characters; the guard keeps that degenerate case inert — the program
only ever replaces nonempty prefixes.) -/
def repChars (k v : List Char) : List Char → Nat → List Char
  | [], _ => []
  | _ :: rest, n+1 => repChars k v rest n
  | c :: rest, 0 =>
    if k ≠ [] ∧ k <+: (c :: rest) then v ++ repChars k v rest (k.length - 1)
    else c :: repChars k v rest 0

/-- Python `s.replace(k, v)` (all occurrences, left to right). -/
def replaceAll (k v s : List Char) : List Char := repChars k v s 0

theorem repChars_skip (k v : List Char) :
    ∀ (s : List Char) (n : Nat), repChars k v s n = replaceAll k v (s.drop n) := by
  intro s
  induction s with
  | nil => intro n; cases n <;> rfl
  | cons c rest ih =>
    intro n
    cases n with
    | zero => rfl
    | succ m => simpa [repChars] using ih m

theorem replaceAll_pos (k v : List Char) (hk : k ≠ []) {s : List Char}
    (hpre : k <+: s) (hs : s ≠ []) :
    replaceAll k v s = v ++ replaceAll k v (s.drop k.length) := by
  obtain ⟨c, rest, rfl⟩ : ∃ c rest, s = c :: rest := by
    cases s with
    | nil => exact absurd rfl hs
    | cons c rest => exact ⟨c, rest, rfl⟩
  obtain ⟨a, t, rfl⟩ : ∃ a t, k = a :: t := by
    cases k with
    | nil => exact absurd rfl hk
    | cons a t => exact ⟨a, t, rfl⟩
  show repChars (a :: t) v (c :: rest) 0 = _
  rw [repChars, if_pos ⟨hk, hpre⟩, repChars_skip]
  simp [List.length_cons]

theorem replaceAll_neg (k v : List Char) {c : Char} {rest : List Char}
    (h : ¬ k <+: (c :: rest)) :
    replaceAll k v (c :: rest) = c :: replaceAll k v rest := by
  show repChars k v (c :: rest) 0 = _
  rw [repChars, if_neg (fun hc => h hc.2)]
  rfl

theorem headq_of_pre {a : Char} {l s : List Char} (h : (a :: l) <+: s) :
    s.head? = some a := by
  obtain ⟨t, rfl⟩ := h
  rfl

theorem heads_differ {a b : Char} {l₁ l₂ s : List Char} (hab : b ≠ a)
    (h : (a :: l₁) <+: s) : ¬ ((b :: l₂) <+: s) := by
  intro hb
  have h1 := headq_of_pre h
  have h2 := headq_of_pre hb
  rw [h1] at h2
  exact hab (Option.some.injEq _ _ ▸ h2.symm)

theorem ne_nil_of_pre {a : Char} {l s : List Char} (h : (a :: l) <+: s) :
    s ≠ [] := by
  obtain ⟨t, rfl⟩ := h
  simp

theorem get_of_pre {l s : List Char} (h : l <+: s) {j : Nat} (hj : j < l.length) :
    s.get? j = l.get? j := by
  obtain ⟨t, rfl⟩ := h
  exact List.get?_append hj

theorem pre_of_agree : ∀ (l s : List Char), (∀ j, j < l.length → s.get? j = l.get? j) →
    l <+: s := by
  intro l
  induction l with
  | nil => intro s _; exact List.nil_prefix
  | cons a l' ih =>
    intro s h
    have h0 : s.get? 0 = some a := by simpa using h 0 (by simp)
    cases s with
    | nil => simp at h0
    | cons b s' =>
      have hb : b = a := by simpa using h0
      subst hb
      have : l' <+: s' := by
        refine ih s' (fun j hj => ?_)
        simpa using h (j + 1) (by simpa using Nat.succ_lt_succ hj)
      obtain ⟨u, rfl⟩ := this
      exact ⟨u, rfl⟩

/-- The first `k.length` characters are untouched by `replaceAll k v`
whenever `k` is itself a prefix of `v`. -/
theorem replaceAll_agree (k v : List Char) (hk : k ≠ []) (hkv : k <+: v) :
    ∀ (n : Nat) (s : List Char), s.length ≤ n →
      ∀ j, j < k.length → (replaceAll k v s).get? j = s.get? j := by
  intro n
  induction n with
  | zero =>
    intro s hs j _
    have : s = [] := List.length_eq_zero.mp (Nat.le_zero.mp hs)
    subst this
    rfl
  | succ n ih =>
    intro s hs j hj
    by_cases hp : k <+: s
    · have hsnil : s ≠ [] := by
        intro h
        subst h
        exact hk (List.prefix_nil.mp hp)
      rw [replaceAll_pos k v hk hp hsnil]
      have hjv : j < v.length := Nat.lt_of_lt_of_le hj hkv.length_le
      rw [List.get?_append hjv, get_of_pre hkv hj, (get_of_pre hp hj).symm]
    · cases s with
      | nil => rfl
      | cons c rest =>
        rw [replaceAll_neg k v hp]
        cases j with
        | zero => rfl
        | succ j' =>
          have hr : rest.length ≤ n := by
            simpa [List.length_cons] using Nat.lt_succ_iff.mp (Nat.lt_of_lt_of_le (by simp) hs)
          simpa using ih rest hr j' (Nat.lt_of_succ_lt hj)

theorem pre_of_replaceAll_pre (k v : List Char) (hk : k ≠ []) (hkv : k <+: v)
    {s : List Char} (h : k <+: replaceAll k v s) : k <+: s := by
  refine pre_of_agree k s (fun j hj => ?_)
  rw [← replaceAll_agree k v hk hkv s.length s (Nat.le_refl _) j hj]
  exact get_of_pre h hj

/-- Replacing every occurrence of `k` by `v` and then every occurrence of `v`
by `k` is the identity, provided `k` is a nonempty prefix of `v`. -/
theorem replaceAll_roundtrip (k v : List Char) (hk : k ≠ []) (hkv : k <+: v) :
    ∀ (n : Nat) (s : List Char), s.length ≤ n →
      replaceAll v k (replaceAll k v s) = s := by
  have hv : v ≠ [] := by
    intro h
    subst h
    exact hk (List.prefix_nil.mp hkv)
  intro n
  induction n with
  | zero =>
    intro s hs
    have : s = [] := List.length_eq_zero.mp (Nat.le_zero.mp hs)
    subst this
    rfl
  | succ n ih =>
    intro s hs
    by_cases hp : k <+: s
    · have hsnil : s ≠ [] := by
        intro h
        subst h
        exact hk (List.prefix_nil.mp hp)
      rw [replaceAll_pos k v hk hp hsnil]
      have hvpre : v <+: v ++ replaceAll k v (s.drop k.length) := List.prefix_append _ _
      have hvnil : v ++ replaceAll k v (s.drop k.length) ≠ [] := by
        intro h
        exact hv (List.append_eq_nil.mp h).1
      rw [replaceAll_pos v k hv hvpre hvnil, List.drop_left]
      obtain ⟨u, rfl⟩ := hp
      have hu : u.length ≤ n := by
        have hklen : 1 ≤ k.length := by
          cases k with
          | nil => exact absurd rfl hk
          | cons a t => simp
        have := hs
        rw [List.length_append] at this
        omega
      rw [List.drop_left, ih u hu]
    · cases s with
      | nil => rfl
      | cons c rest =>
        rw [replaceAll_neg k v hp]
        have hnv : ¬ v <+: (c :: replaceAll k v rest) := by
          intro hvp
          have hkf : k <+: replaceAll k v (c :: rest) := by
            rw [replaceAll_neg k v hp]
            exact hkv.trans hvp
          exact hp (pre_of_replaceAll_pre k v hk hkv hkf)
        rw [replaceAll_neg v k hnv]
        have hr : rest.length ≤ n := by
          simpa [List.length_cons] using Nat.lt_succ_iff.mp (Nat.lt_of_lt_of_le (by simp) hs)
        rw [ih rest hr]

/-- The abbreviation table `interface_full_name_map` of the source, in its
Python insertion (= iteration) order. -/
def interface_full_name_map : List (String × String) :=
  [("Eth", "Ethernet"), ("Fa", "FastEthernet"),
   ("Gi", "GigabitEthernet"), ("Te", "TenGigabitEthernet")]

/-- The loop body of `if_fullname`: for each `(k, v)` pair in order, return
the input unchanged if it already starts with the long form `v`, replace
`k` by `v` if it starts with the short prefix `k`, otherwise continue. -/
def fullGo : List (String × String) → String → String
  | [], s => s
  | (k, v) :: rest, s =>
    if v.data <+: s.data then s
    else if k.data <+: s.data then ⟨replaceAll k.data v.data s.data⟩
    else fullGo rest s

/-- Source function `if_fullname`: canonicalize a vendor-abbreviated
interface name to its long form. -/
def if_fullname (ifname : String) : String := fullGo interface_full_name_map ifname

/-- The loop body of `if_shortname`: for each `(k, v)` pair in order,
replace the long form `v` by `k` if the input starts with `v`. -/
def shortGo : List (String × String) → String → String
  | [], s => s
  | (k, v) :: rest, s =>
    if v.data <+: s.data then ⟨replaceAll v.data k.data s.data⟩
    else shortGo rest s

/-- Source function `if_shortname`: abbreviate a long-form interface name. -/
def if_shortname (ifname : String) : String := shortGo interface_full_name_map ifname

theorem fullGo_cons_v {k v : String} {rest : List (String × String)} {s : String}
    (h : v.data <+: s.data) : fullGo ((k, v) :: rest) s = s := by
  simp [fullGo, h]

theorem fullGo_cons_k {k v : String} {rest : List (String × String)} {s : String}
    (hv : ¬ v.data <+: s.data) (hk : k.data <+: s.data) :
    fullGo ((k, v) :: rest) s = ⟨replaceAll k.data v.data s.data⟩ := by
  simp [fullGo, hv, hk]

theorem fullGo_cons_skip {k v : String} {rest : List (String × String)} {s : String}
    (hv : ¬ v.data <+: s.data) (hk : ¬ k.data <+: s.data) :
    fullGo ((k, v) :: rest) s = fullGo rest s := by
  simp [fullGo, hv, hk]

theorem shortGo_cons_v {k v : String} {rest : List (String × String)} {s : String}
    (h : v.data <+: s.data) : shortGo ((k, v) :: rest) s = ⟨replaceAll v.data k.data s.data⟩ := by
  simp [shortGo, h]

theorem shortGo_cons_skip {k v : String} {rest : List (String × String)} {s : String}
    (hv : ¬ v.data <+: s.data) : shortGo ((k, v) :: rest) s = shortGo rest s := by
  simp [shortGo, hv]

/-- Round trip on one table pair: if `s` starts with the short prefix `k`
but not with the corresponding long form `v`, then `if_fullname` rewrites
`k` to `v` and `if_shortname` undoes it exactly. -/
theorem roundtrip_Eth {s : String} (hk : "Eth".data <+: s.data)
    (hnv : ¬ "Ethernet".data <+: s.data) : if_shortname (if_fullname s) = s := by
  have hfull : if_fullname s = ⟨replaceAll "Eth".data "Ethernet".data s.data⟩ := by
    rw [if_fullname]
    show fullGo (("Eth", "Ethernet") :: _) s = _
    rw [fullGo_cons_k hnv hk]
  have hdata : (if_fullname s).data = replaceAll "Eth".data "Ethernet".data s.data := by
    rw [hfull]
  have hpos : replaceAll "Eth".data "Ethernet".data s.data =
      "Ethernet".data ++ replaceAll "Eth".data "Ethernet".data (s.data.drop 3) :=
    replaceAll_pos _ _ (by decide) hk (ne_nil_of_pre hk)
  have hvpre : "Ethernet".data <+: (if_fullname s).data := by
    rw [hdata, hpos]
    exact List.prefix_append _ _
  rw [if_shortname]
  show shortGo (("Eth", "Ethernet") :: _) (if_fullname s) = s
  rw [shortGo_cons_v hvpre, hdata,
    replaceAll_roundtrip "Eth".data "Ethernet".data (by decide) (by decide)
      s.data.length s.data (Nat.le_refl _)]

theorem roundtrip_Fa {s : String} (hk : "Fa".data <+: s.data)
    (hnv : ¬ "FastEthernet".data <+: s.data) : if_shortname (if_fullname s) = s := by
  have hE : ¬ "Ethernet".data <+: s.data := heads_differ (by decide) hk
  have hEth : ¬ "Eth".data <+: s.data := heads_differ (by decide) hk
  have hfull : if_fullname s = ⟨replaceAll "Fa".data "FastEthernet".data s.data⟩ := by
    rw [if_fullname]
    show fullGo (("Eth", "Ethernet") :: ("Fa", "FastEthernet") :: _) s = _
    rw [fullGo_cons_skip hE hEth, fullGo_cons_k hnv hk]
  have hdata : (if_fullname s).data = replaceAll "Fa".data "FastEthernet".data s.data := by
    rw [hfull]
  have hpos : replaceAll "Fa".data "FastEthernet".data s.data =
      "FastEthernet".data ++ replaceAll "Fa".data "FastEthernet".data (s.data.drop 2) :=
    replaceAll_pos _ _ (by decide) hk (ne_nil_of_pre hk)
  have hvpre : "FastEthernet".data <+: (if_fullname s).data := by
    rw [hdata, hpos]
    exact List.prefix_append _ _
  have hvE : ¬ "Ethernet".data <+: (if_fullname s).data := heads_differ (by decide) hvpre
  rw [if_shortname]
  show shortGo (("Eth", "Ethernet") :: ("Fa", "FastEthernet") :: _) (if_fullname s) = s
  rw [shortGo_cons_skip hvE, shortGo_cons_v hvpre, hdata,
    replaceAll_roundtrip "Fa".data "FastEthernet".data (by decide) (by decide)
      s.data.length s.data (Nat.le_refl _)]

theorem roundtrip_Gi {s : String} (hk : "Gi".data <+: s.data)
    (hnv : ¬ "GigabitEthernet".data <+: s.data) : if_shortname (if_fullname s) = s := by
  have hE : ¬ "Ethernet".data <+: s.data := heads_differ (by decide) hk
  have hEth : ¬ "Eth".data <+: s.data := heads_differ (by decide) hk
  have hFE : ¬ "FastEthernet".data <+: s.data := heads_differ (by decide) hk
  have hFa : ¬ "Fa".data <+: s.data := heads_differ (by decide) hk
  have hfull : if_fullname s = ⟨replaceAll "Gi".data "GigabitEthernet".data s.data⟩ := by
    rw [if_fullname]
    show fullGo (("Eth", "Ethernet") :: ("Fa", "FastEthernet") ::
      ("Gi", "GigabitEthernet") :: _) s = _
    rw [fullGo_cons_skip hE hEth, fullGo_cons_skip hFE hFa, fullGo_cons_k hnv hk]
  have hdata : (if_fullname s).data = replaceAll "Gi".data "GigabitEthernet".data s.data := by
    rw [hfull]
  have hpos : replaceAll "Gi".data "GigabitEthernet".data s.data =
      "GigabitEthernet".data ++ replaceAll "Gi".data "GigabitEthernet".data (s.data.drop 2) :=
    replaceAll_pos _ _ (by decide) hk (ne_nil_of_pre hk)
  have hvpre : "GigabitEthernet".data <+: (if_fullname s).data := by
    rw [hdata, hpos]
    exact List.prefix_append _ _
  have hvE : ¬ "Ethernet".data <+: (if_fullname s).data := heads_differ (by decide) hvpre
  have hvF : ¬ "FastEthernet".data <+: (if_fullname s).data := heads_differ (by decide) hvpre
  rw [if_shortname]
  show shortGo (("Eth", "Ethernet") :: ("Fa", "FastEthernet") ::
    ("Gi", "GigabitEthernet") :: _) (if_fullname s) = s
  rw [shortGo_cons_skip hvE, shortGo_cons_skip hvF, shortGo_cons_v hvpre, hdata,
    replaceAll_roundtrip "Gi".data "GigabitEthernet".data (by decide) (by decide)
      s.data.length s.data (Nat.le_refl _)]

theorem roundtrip_Te {s : String} (hk : "Te".data <+: s.data)
    (hnv : ¬ "TenGigabitEthernet".data <+: s.data) : if_shortname (if_fullname s) = s := by
  have hE : ¬ "Ethernet".data <+: s.data := heads_differ (by decide) hk
  have hEth : ¬ "Eth".data <+: s.data := heads_differ (by decide) hk
  have hFE : ¬ "FastEthernet".data <+: s.data := heads_differ (by decide) hk
  have hFa : ¬ "Fa".data <+: s.data := heads_differ (by decide) hk
  have hGE : ¬ "GigabitEthernet".data <+: s.data := heads_differ (by decide) hk
  have hGi : ¬ "Gi".data <+: s.data := heads_differ (by decide) hk
  have hfull : if_fullname s = ⟨replaceAll "Te".data "TenGigabitEthernet".data s.data⟩ := by
    rw [if_fullname]
    show fullGo (("Eth", "Ethernet") :: ("Fa", "FastEthernet") ::
      ("Gi", "GigabitEthernet") :: ("Te", "TenGigabitEthernet") :: _) s = _
    rw [fullGo_cons_skip hE hEth, fullGo_cons_skip hFE hFa, fullGo_cons_skip hGE hGi,
      fullGo_cons_k hnv hk]
  have hdata : (if_fullname s).data = replaceAll "Te".data "TenGigabitEthernet".data s.data := by
    rw [hfull]
  have hpos : replaceAll "Te".data "TenGigabitEthernet".data s.data =
      "TenGigabitEthernet".data ++ replaceAll "Te".data "TenGigabitEthernet".data (s.data.drop 2) :=
    replaceAll_pos _ _ (by decide) hk (ne_nil_of_pre hk)
  have hvpre : "TenGigabitEthernet".data <+: (if_fullname s).data := by
    rw [hdata, hpos]
    exact List.prefix_append _ _
  have hvE : ¬ "Ethernet".data <+: (if_fullname s).data := heads_differ (by decide) hvpre
  have hvF : ¬ "FastEthernet".data <+: (if_fullname s).data := heads_differ (by decide) hvpre
  have hvG : ¬ "GigabitEthernet".data <+: (if_fullname s).data := heads_differ (by decide) hvpre
  rw [if_shortname]
  show shortGo (("Eth", "Ethernet") :: ("Fa", "FastEthernet") ::
    ("Gi", "GigabitEthernet") :: ("Te", "TenGigabitEthernet") :: _) (if_fullname s) = s
  rw [shortGo_cons_skip hvE, shortGo_cons_skip hvF, shortGo_cons_skip hvG,
    shortGo_cons_v hvpre, hdata,
    replaceAll_roundtrip "Te".data "TenGigabitEthernet".data (by decide) (by decide)
      s.data.length s.data (Nat.le_refl _)]

/-- The function `if_fullname` leaves any input that already starts with a long form of
the table unchanged. -/
theorem fullname_fixes_longform : ∀ p ∈ interface_full_name_map, ∀ s : String,
    p.2.data <+: s.data → if_fullname s = s := by
  intro p hp s hpre
  have hp' : p = ("Eth", "Ethernet") ∨ p = ("Fa", "FastEthernet") ∨
      p = ("Gi", "GigabitEthernet") ∨ p = ("Te", "TenGigabitEthernet") := by
    simpa [interface_full_name_map] using hp
  rcases hp' with rfl | rfl | rfl | rfl
  · rw [if_fullname]
    show fullGo (("Eth", "Ethernet") :: _) s = s
    rw [fullGo_cons_v hpre]
  · have hE : ¬ "Ethernet".data <+: s.data := heads_differ (by decide) hpre
    have hEth : ¬ "Eth".data <+: s.data := heads_differ (by decide) hpre
    rw [if_fullname]
    show fullGo (("Eth", "Ethernet") :: ("Fa", "FastEthernet") :: _) s = s
    rw [fullGo_cons_skip hE hEth, fullGo_cons_v hpre]
  · have hE : ¬ "Ethernet".data <+: s.data := heads_differ (by decide) hpre
    have hEth : ¬ "Eth".data <+: s.data := heads_differ (by decide) hpre
    have hFE : ¬ "FastEthernet".data <+: s.data := heads_differ (by decide) hpre
    have hFa : ¬ "Fa".data <+: s.data := heads_differ (by decide) hpre
    rw [if_fullname]
    show fullGo (("Eth", "Ethernet") :: ("Fa", "FastEthernet") ::
      ("Gi", "GigabitEthernet") :: _) s = s
    rw [fullGo_cons_skip hE hEth, fullGo_cons_skip hFE hFa, fullGo_cons_v hpre]
  · have hE : ¬ "Ethernet".data <+: s.data := heads_differ (by decide) hpre
    have hEth : ¬ "Eth".data <+: s.data := heads_differ (by decide) hpre
    have hFE : ¬ "FastEthernet".data <+: s.data := heads_differ (by decide) hpre
    have hFa : ¬ "Fa".data <+: s.data := heads_differ (by decide) hpre
    have hGE : ¬ "GigabitEthernet".data <+: s.data := heads_differ (by decide) hpre
    have hGi : ¬ "Gi".data <+: s.data := heads_differ (by decide) hpre
    rw [if_fullname]
    show fullGo (("Eth", "Ethernet") :: ("Fa", "FastEthernet") ::
      ("Gi", "GigabitEthernet") :: ("Te", "TenGigabitEthernet") :: _) s = s
    rw [fullGo_cons_skip hE hEth, fullGo_cons_skip hFE hFa, fullGo_cons_skip hGE hGi,
      fullGo_cons_v hpre]

/-- Python dict assignment `d[k] = v` on an insertion-ordered association
list: overwrite in place if the key exists, else append. -/
def dset {β : Type} : List (String × β) → String → β → List (String × β)
  | [], k, v => [(k, v)]
  | (k', v') :: rest, k, v =>
    if k' = k then (k, v) :: rest else (k', v') :: dset rest k v

/-- Python dict lookup `d[k]` / `d.get(k)`. -/
def dget {β : Type} : List (String × β) → String → Option β
  | [], _ => none
  | (k', v) :: rest, k => if k' = k then some v else dget rest k

/-- Python `d.get(k, dflt)`. -/
def dgetD {β : Type} (d : List (String × β)) (k : String) (dflt : β) : β :=
  (dget d k).getD dflt

theorem dget_dset_self {β : Type} (m : List (String × β)) (k : String) (v : β) :
    dget (dset m k v) k = some v := by
  induction m with
  | nil => simp [dset, dget]
  | cons p rest ih =>
    by_cases h : p.1 = k
    · simp [dset, dget, h]
    · simp [dset, dget, h, ih]

theorem dget_dset_ne {β : Type} (m : List (String × β)) {k k' : String} (v : β)
    (h : k' ≠ k) : dget (dset m k' v) k = dget m k := by
  induction m with
  | nil => simp [dset, dget, h]
  | cons p rest ih =>
    by_cases hp : p.1 = k'
    · simp [dset, dget, hp, h]
    · by_cases hk : p.1 = k
      · simp [dset, dget, hp, hk, Ne.symm h]
      · simp [dset, dget, hp, hk, ih]

/-- One NAPALM LLDP neighbor record, as consumed by the extractor. -/
structure NeighborRecord where
  remote_system_name : String
  remote_port : String
  remote_system_enable_capab : List String
deriving DecidableEq

/-- LLDP detail of one device: a dict mapping a local interface name to the
list of neighbor records seen on it.  A per-device collection failure is
recorded as the empty list (Python `[]`), which iterates like an empty dict. -/
abbrev LldpOfHost := List (String × List NeighborRecord)

/-- The `lldpById` mapping: device identity to LLDP detail. -/
abbrev LldpInput := List (String × LldpOfHost)

abbrev LinkEnd := String × String

abbrev LinkT := LinkEnd × LinkEnd

/-- The triple accumulated by `extract_lldp_details`: the discovered-host
set (insertion ordered), the deduplicated link list, and the capability
dict keyed by the neighbor-reported device name. -/
structure ExtractState where
  hosts : List String
  links : List LinkT
  caps : List (String × String)
deriving DecidableEq

/-- Python `set.add`: the discovered-host set as an insertion-ordered
duplicate-free list. -/
def addHost (hs : List String) (h : String) : List String :=
  if h ∈ hs then hs else hs ++ [h]

/-- The body of the extractor's inner loop, one neighbor record at a time.
A record with an empty `remote_system_name` is dropped; otherwise the remote
host is added, its first enabled capability recorded
(`remote_system_enable_capab[0]` — `none` models the IndexError raised when
that list is empty), and the candidate link appended unless an equal link is
already present in either endpoint order. -/
def procNeighbors (host iface : String) : ExtractState → List NeighborRecord →
    Option ExtractState
  | st, [] => some st
  | st, nbr :: rest =>
    if nbr.remote_system_name = "" then procNeighbors host iface st rest
    else
      match nbr.remote_system_enable_capab with
      | [] => none
      | cap :: _ =>
        let le : LinkEnd := (host, iface)
        let re : LinkEnd := (nbr.remote_system_name, if_fullname nbr.remote_port)
        let newLinks :=
          if (le, re) ∈ st.links ∨ (re, le) ∈ st.links then st.links
          else st.links ++ [(le, re)]
        procNeighbors host iface
          { hosts := addHost st.hosts nbr.remote_system_name,
            links := newLinks,
            caps := dset st.caps nbr.remote_system_name cap } rest

/-- The extractor's middle loop over `lldp_data.items()`. -/
def procIfaces (host : String) : ExtractState → LldpOfHost → Option ExtractState
  | st, [] => some st
  | st, (iface, nbrs) :: rest =>
    match procNeighbors host iface st nbrs with
    | none => none
    | some st' => procIfaces host st' rest

/-- The extractor's outer loop over `lldp_data_dict.items()`: falsy keys are
skipped entirely, every other key is added to the host set, and its LLDP
data (empty for failed devices) is walked.  (`if not lldp_data: continue`
coincides with walking an empty dict.) -/
def procHosts : ExtractState → LldpInput → Option ExtractState
  | st, [] => some st
  | st, (host, lldp) :: rest =>
    if host = "" then procHosts st rest
    else
      match procIfaces host { st with hosts := addHost st.hosts host } lldp with
      | none => none
      | some st' => procHosts st' rest

/-- Source function `extract_lldp_details`. -/
def extract_lldp_details (lldp_data_dict : LldpInput) : Option ExtractState :=
  procHosts ⟨[], [], []⟩ lldp_data_dict

/-- The NAPALM `facts` record.  `fqdn` and `hostname` are always present in
the getter's result; `model` and `serial_number` may be absent (`none`),
in which case the builder substitutes `"n/a"`. -/
structure Facts where
  fqdn : String
  hostname : String
  model : Option String
  serial_number : Option String
deriving DecidableEq

/-- A value of the `global_facts` dict: either the empty list written for a
failed device (falsy in Python) or a facts record. -/
inductive FactsEntry where
  | emptyL
  | facts (f : Facts)
deriving DecidableEq

/-- One device's poll outcome, as seen by `normalize_result`: a failure
marker (`output[0].failed`) or the pair of getter results. -/
inductive PollOut where
  | failed
  | ok (facts : Facts) (lldp : LldpOfHost)
deriving DecidableEq

/-- The identity-resolution chain of `normalize_result`: FQDN if non-empty,
else hostname if non-empty, else the inventory device name. -/
def resolveId (f : Facts) (dev : String) : String :=
  if f.fqdn ≠ "" then f.fqdn else if f.hostname ≠ "" then f.hostname else dev

/-- The loop of `normalize_result`, threading the two result dicts. -/
def normGo : List (String × PollOut) → List (String × LldpOfHost) →
    List (String × FactsEntry) → List (String × LldpOfHost) × List (String × FactsEntry)
  | [], l, f => (l, f)
  | (dev, PollOut.failed) :: rest, l, f =>
    normGo rest (dset l dev []) (dset f dev FactsEntry.emptyL)
  | (dev, PollOut.ok fa ld) :: rest, l, f =>
    normGo rest (dset l (resolveId fa dev) ld) (dset f (resolveId fa dev) (FactsEntry.facts fa))

/-- Source function `normalize_result`: returns `(global_lldp_data,
global_facts)`. -/
def normalize_result (nornir_job_result : List (String × PollOut)) :
    List (String × LldpOfHost) × List (String × FactsEntry) :=
  normGo nornir_job_result [] []

/-- A node of the generated topology JSON. -/
structure Node where
  id : Nat
  name : String
  model : String
  serial_number : String
  icon : String
deriving DecidableEq

/-- A link of the generated topology JSON. -/
structure Link where
  id : Nat
  source : Nat
  target : Nat
  srcIfName : String
  srcDevice : String
  tgtIfName : String
  tgtDevice : String
deriving DecidableEq

structure Topology where
  nodes : List Node
  links : List Link
deriving DecidableEq

/-- The `icon_type_map` table of the source. -/
def icon_type_map : List (String × String) :=
  [("router", "router"), ("switch", "switch"), ("bridge", "switch"), ("station", "host")]

/-- Source function `get_icon_type`: `icon_type_map.get(cap, 'unknown')`. -/
def get_icon_type (device_cap_name : String) : String :=
  dgetD icon_type_map device_cap_name "unknown"

/-- One node as assembled by `generate_topology_json`: model and serial come
from the facts entry when it is a truthy dict (a facts record — the empty
list written for failed devices is falsy), defaulting to `"n/a"`; the icon
comes from the capability dict with default `''`. -/
def mkNode (caps : List (String × String)) (facts : List (String × FactsEntry))
    (i : Nat) (h : String) : Node :=
  { id := i, name := h,
    model := match dget facts h with
      | some (FactsEntry.facts f) => f.model.getD "n/a"
      | _ => "n/a",
    serial_number := match dget facts h with
      | some (FactsEntry.facts f) => f.serial_number.getD "n/a"
      | _ => "n/a",
    icon := get_icon_type (dgetD caps h "") }

/-- The node loop of `generate_topology_json` with its running `host_id`. -/
def buildNodes (caps : List (String × String)) (facts : List (String × FactsEntry)) :
    List String → Nat → List Node
  | [], _ => []
  | h :: rest, i => mkNode caps facts i h :: buildNodes caps facts rest (i + 1)

/-- The `host_id_map` dict built alongside the node loop. -/
def buildIdMapGo : List String → Nat → List (String × Nat) → List (String × Nat)
  | [], _, m => m
  | h :: rest, i, m => buildIdMapGo rest (i + 1) (dset m h i)

def buildIdMap (hosts : List String) : List (String × Nat) := buildIdMapGo hosts 0 []

/-- The link loop of `generate_topology_json` with its running `link_id`;
`none` models the KeyError raised when `host_id_map[...]` misses. -/
def buildLinks (idMap : List (String × Nat)) : List LinkT → Nat → Option (List Link)
  | [], _ => some []
  | L :: rest, i =>
    match dget idMap L.1.1, dget idMap L.2.1, buildLinks idMap rest (i + 1) with
    | some s, some t, some ls =>
      some ({ id := i, source := s, target := t,
              srcIfName := if_shortname L.1.2, srcDevice := L.1.1,
              tgtIfName := if_shortname L.2.2, tgtDevice := L.2.1 } :: ls)
    | _, _, _ => none

/-- Source function `generate_topology_json`. -/
def generate_topology_json (hosts : List String) (links : List LinkT)
    (caps : List (String × String)) (facts : List (String × FactsEntry)) : Option Topology :=
  match buildLinks (buildIdMap hosts) links 0 with
  | none => none
  | some ls => some { nodes := buildNodes caps facts hosts 0, links := ls }

/-- The `{'added': ..., 'deleted': ...}` dicts returned by the diff engine. -/
structure DiffSets (α : Type) where
  added : List α
  deleted : List α
deriving DecidableEq

/-- The node identities compared by the diff engine: the `(x['name'],)`
singleton tuples, modelled as the bare names. -/
def nodeNames (t : Topology) : List String := t.nodes.map Node.name

/-- The link identities compared by the diff engine:
`((srcDevice, srcIfName), (tgtDevice, tgtIfName))`. -/
def linkKeys (t : Topology) : List LinkT :=
  t.links.map (fun l => ((l.srcDevice, l.srcIfName), (l.tgtDevice, l.tgtIfName)))

/-- Source function `get_topology_diff`. -/
def get_topology_diff (cached current : Topology) : DiffSets String × DiffSets LinkT :=
  let cached_links := linkKeys cached
  let links := linkKeys current
  let cached_nodes := nodeNames cached
  let nodes := nodeNames current
  ({ added := nodes.filter (fun n => decide (¬ n ∈ cached_nodes)),
     deleted := cached_nodes.filter (fun n => decide (¬ n ∈ nodes)) },
   { added := links.filter
       (fun p => decide (¬ p ∈ cached_links ∧ ¬ (p.2, p.1) ∈ cached_links)),
     deleted := cached_links.filter
       (fun p => decide (¬ p ∈ links ∧ ¬ (p.2, p.1) ∈ links)) })

/-- No two recorded links are equal in either endpoint order. -/
def SymNodup (ls : List LinkT) : Prop :=
  List.Pairwise (fun a b => a ≠ b ∧ a ≠ (b.2, b.1)) ls

/-- Every recorded link's endpoint devices are in the discovered-host set. -/
def EndsInHosts (st : ExtractState) : Prop :=
  ∀ l ∈ st.links, l.1.1 ∈ st.hosts ∧ l.2.1 ∈ st.hosts

/-- The extractor's running invariant. -/
def ExtractInv (st : ExtractState) : Prop :=
  st.hosts.Nodup ∧ EndsInHosts st ∧ SymNodup st.links

theorem addHost_mem_self (hs : List String) (h : String) : h ∈ addHost hs h := by
  by_cases hm : h ∈ hs
  · simp [addHost, hm]
  · simp [addHost, hm]

theorem addHost_mono (hs : List String) (h : String) {x : String} (hx : x ∈ hs) :
    x ∈ addHost hs h := by
  by_cases hm : h ∈ hs
  · simpa [addHost, hm] using hx
  · simp [addHost, hm, hx]

theorem addHost_nodup {hs : List String} (h : String) (hn : hs.Nodup) :
    (addHost hs h).Nodup := by
  by_cases hm : h ∈ hs
  · simpa [addHost, hm] using hn
  · rw [addHost, if_neg hm, List.nodup_append]
    refine ⟨hn, List.nodup_singleton h, ?_⟩
    intro a ha hb
    have hah : a = h := by simpa using hb
    exact hm (hah ▸ ha)

theorem dedupAppend_symNodup {ls : List LinkT} {le re : LinkEnd} (h : SymNodup ls) :
    SymNodup (if (le, re) ∈ ls ∨ (re, le) ∈ ls then ls else ls ++ [(le, re)]) := by
  by_cases hmem : (le, re) ∈ ls ∨ (re, le) ∈ ls
  · rw [if_pos hmem]; exact h
  · rw [if_neg hmem]
    push_neg at hmem
    rw [SymNodup, List.pairwise_append]
    refine ⟨h, List.pairwise_singleton _ _, ?_⟩
    intro a ha b hb
    have hb' : b = (le, re) := by simpa using hb
    subst hb'
    exact ⟨fun e => hmem.1 (e ▸ ha), fun e => hmem.2 (e ▸ ha)⟩

theorem dedupAppend_mem {ls : List LinkT} {le re : LinkEnd} {l : LinkT}
    (h : l ∈ (if (le, re) ∈ ls ∨ (re, le) ∈ ls then ls else ls ++ [(le, re)])) :
    l ∈ ls ∨ l = (le, re) := by
  by_cases hmem : (le, re) ∈ ls ∨ (re, le) ∈ ls
  · rw [if_pos hmem] at h; exact Or.inl h
  · rw [if_neg hmem] at h; simpa using h

theorem procNeighbors_inv (host iface : String) :
    ∀ (nbrs : List NeighborRecord) (st st' : ExtractState),
      procNeighbors host iface st nbrs = some st' → host ∈ st.hosts → ExtractInv st →
      ExtractInv st' ∧ ∀ x ∈ st.hosts, x ∈ st'.hosts := by
  intro nbrs
  induction nbrs with
  | nil =>
    intro st st' h hh hinv
    cases h
    exact ⟨hinv, fun x hx => hx⟩
  | cons nbr rest ih =>
    intro st st' h hh hinv
    by_cases hname : nbr.remote_system_name = ""
    · rw [procNeighbors, if_pos hname] at h
      exact ih st st' h hh hinv
    · cases hcap : nbr.remote_system_enable_capab with
      | nil =>
        rw [procNeighbors, if_neg hname, hcap] at h
        cases h
      | cons cap caps' =>
        rw [procNeighbors, if_neg hname, hcap] at h
        obtain ⟨hinv1, hmono1⟩ := ih _ st' h (addHost_mono _ _ hh) (by
          obtain ⟨hnd, hends, hsym⟩ := hinv
          refine ⟨addHost_nodup _ hnd, ?_, dedupAppend_symNodup hsym⟩
          intro l hl
          rcases dedupAppend_mem hl with hold | hnew
          · exact ⟨addHost_mono _ _ (hends l hold).1, addHost_mono _ _ (hends l hold).2⟩
          · subst hnew
            exact ⟨addHost_mono _ _ hh, addHost_mem_self _ _⟩)
        exact ⟨hinv1, fun x hx => hmono1 x (addHost_mono _ _ hx)⟩

theorem procIfaces_inv (host : String) :
    ∀ (lldp : LldpOfHost) (st st' : ExtractState),
      procIfaces host st lldp = some st' → host ∈ st.hosts → ExtractInv st →
      ExtractInv st' ∧ ∀ x ∈ st.hosts, x ∈ st'.hosts := by
  intro lldp
  induction lldp with
  | nil =>
    intro st st' h hh hinv
    cases h
    exact ⟨hinv, fun x hx => hx⟩
  | cons p rest ih =>
    intro st st' h hh hinv
    rw [procIfaces] at h
    cases hn : procNeighbors host p.1 st p.2 with
    | none => rw [hn] at h; cases h
    | some st1 =>
      rw [hn] at h
      obtain ⟨hinv1, hmono1⟩ := procNeighbors_inv host p.1 p.2 st st1 hn hh hinv
      obtain ⟨hinv2, hmono2⟩ := ih st1 st' h (hmono1 host hh) hinv1
      exact ⟨hinv2, fun x hx => hmono2 x (hmono1 x hx)⟩

theorem procHosts_inv :
    ∀ (input : LldpInput) (st st' : ExtractState),
      procHosts st input = some st' → ExtractInv st → ExtractInv st' := by
  intro input
  induction input with
  | nil =>
    intro st st' h hinv
    cases h
    exact hinv
  | cons p rest ih =>
    intro st st' h hinv
    by_cases hempty : p.1 = ""
    · rw [procHosts, if_pos hempty] at h
      exact ih st st' h hinv
    · rw [procHosts, if_neg hempty] at h
      cases hn : procIfaces p.1 { st with hosts := addHost st.hosts p.1 } p.2 with
      | none => rw [hn] at h; cases h
      | some st1 =>
        rw [hn] at h
        obtain ⟨hnd, hends, hsym⟩ := hinv
        have hinv0 : ExtractInv { st with hosts := addHost st.hosts p.1 } := by
          refine ⟨addHost_nodup _ hnd, ?_, hsym⟩
          intro l hl
          exact ⟨addHost_mono _ _ (hends l hl).1, addHost_mono _ _ (hends l hl).2⟩
        obtain ⟨hinv1, _⟩ :=
          procIfaces_inv p.1 p.2 _ st1 hn (addHost_mem_self _ _) hinv0
        exact ih st1 st' h hinv1

/-- Every successful extraction satisfies the extractor invariant. -/
theorem extract_inv {input : LldpInput} {st : ExtractState}
    (h : extract_lldp_details input = some st) : ExtractInv st :=
  procHosts_inv input ⟨[], [], []⟩ st h ⟨List.nodup_nil, fun l hl => absurd hl (by simp), List.Pairwise.nil⟩

/-- The association list `[(h₀, i), (h₁, i+1), ...]`. -/
def enumFrom : List String → Nat → List (String × Nat)
  | [], _ => []
  | h :: rest, i => (h, i) :: enumFrom rest (i + 1)

theorem dset_fresh {β : Type} : ∀ (m : List (String × β)) (k : String) (v : β),
    ¬ k ∈ m.map Prod.fst → dset m k v = m ++ [(k, v)] := by
  intro m
  induction m with
  | nil => intro k v _; rfl
  | cons p rest ih =>
    intro k v h
    have h1 : ¬ p.1 = k := by
      intro e
      exact h (by simp [e])
    rw [dset, if_neg h1, ih k v (fun hm => h (by simp [hm]))]
    rfl

theorem buildIdMapGo_eq : ∀ (hosts : List String) (i : Nat) (m : List (String × Nat)),
    hosts.Nodup → (∀ h ∈ hosts, ¬ h ∈ m.map Prod.fst) →
    buildIdMapGo hosts i m = m ++ enumFrom hosts i := by
  intro hosts
  induction hosts with
  | nil => intro i m _ _; simp [buildIdMapGo, enumFrom]
  | cons h rest ih =>
    intro i m hn hd
    rw [buildIdMapGo, dset_fresh m h i (hd h (by simp)),
      ih (i + 1) (m ++ [(h, i)]) hn.of_cons ?_]
    · simp [enumFrom]
    · intro x hx hmem
      rw [List.map_append, List.mem_append] at hmem
      rcases hmem with h1 | h2
      · exact hd x (List.mem_cons_of_mem h hx) h1
      · have hxh : x = h := by simpa using h2
        rw [List.nodup_cons] at hn
        exact hn.1 (hxh ▸ hx)

theorem enumFrom_dget : ∀ (hosts : List String) (i : Nat) (h : String),
    h ∈ hosts → hosts.Nodup →
    ∃ j, dget (enumFrom hosts i) h = some (i + j) ∧ hosts.get? j = some h := by
  intro hosts
  induction hosts with
  | nil => intro i h hm; cases hm
  | cons a rest ih =>
    intro i h hm hn
    by_cases hah : a = h
    · subst hah
      exact ⟨0, by simp [enumFrom, dget], rfl⟩
    · have hmr : h ∈ rest := by
        rcases List.mem_cons.mp hm with h1 | h2
        · exact absurd h1.symm hah
        · exact h2
      obtain ⟨j, hj1, hj2⟩ := ih (i + 1) h hmr hn.of_cons
      refine ⟨j + 1, ?_, hj2⟩
      rw [enumFrom, dget, if_neg hah, hj1]
      congr 1
      omega

theorem buildIdMap_dget {hosts : List String} (hn : hosts.Nodup) {h : String}
    (hm : h ∈ hosts) :
    ∃ j, dget (buildIdMap hosts) h = some j ∧ hosts.get? j = some h := by
  rw [buildIdMap, buildIdMapGo_eq hosts 0 [] hn (by simp)]
  obtain ⟨j, hj1, hj2⟩ := enumFrom_dget hosts 0 h hm hn
  exact ⟨j, by simpa using hj1, hj2⟩

theorem buildNodes_get? (caps : List (String × String)) (facts : List (String × FactsEntry)) :
    ∀ (hosts : List String) (i j : Nat) (h : String),
    hosts.get? j = some h →
    (buildNodes caps facts hosts i).get? j = some (mkNode caps facts (i + j) h) := by
  intro hosts
  induction hosts with
  | nil => intro i j h hj; simp at hj
  | cons a rest ih =>
    intro i j h hj
    cases j with
    | zero =>
      have ha : a = h := by simpa using hj
      subst ha
      simp [buildNodes]
    | succ j' =>
      have hj' : rest.get? j' = some h := hj
      have := ih (i + 1) j' h hj'
      show (buildNodes caps facts rest (i + 1)).get? j' = _
      rw [this]
      congr 2
      omega

/-- The list `[i, i+1, ..., i+n-1]`. -/
def natsFrom : Nat → Nat → List Nat
  | _, 0 => []
  | i, n+1 => i :: natsFrom (i + 1) n

theorem natsFrom_shift : ∀ (n i : Nat), natsFrom (i + 1) n = (natsFrom i n).map Nat.succ := by
  intro n
  induction n with
  | zero => intro i; rfl
  | succ n ih =>
    intro i
    show (i + 1) :: natsFrom (i + 2) n = (i :: natsFrom (i + 1) n).map Nat.succ
    rw [List.map_cons, ← ih (i + 1)]

theorem natsFrom_zero : ∀ n : Nat, natsFrom 0 n = List.range n := by
  intro n
  induction n with
  | zero => rfl
  | succ n ih =>
    show 0 :: natsFrom 1 n = _
    rw [natsFrom_shift n 0, ih, List.range_succ_eq_map]

theorem natsFrom_length : ∀ (n i : Nat), (natsFrom i n).length = n := by
  intro n
  induction n with
  | zero => intro i; rfl
  | succ n ih => intro i; simpa [natsFrom] using ih (i + 1)

theorem buildNodes_map_id (caps : List (String × String)) (facts : List (String × FactsEntry)) :
    ∀ (hosts : List String) (i : Nat),
    (buildNodes caps facts hosts i).map Node.id = natsFrom i hosts.length := by
  intro hosts
  induction hosts with
  | nil => intro i; rfl
  | cons a rest ih =>
    intro i
    show Node.id (mkNode caps facts i a) :: (buildNodes caps facts rest (i + 1)).map Node.id = _
    rw [ih (i + 1)]
    rfl

theorem buildLinks_ok (idMap : List (String × Nat)) :
    ∀ (links : List LinkT) (i : Nat),
    (∀ L ∈ links, (dget idMap L.1.1).isSome ∧ (dget idMap L.2.1).isSome) →
    ∃ ls, buildLinks idMap links i = some ls ∧
      ls.map Link.id = natsFrom i links.length ∧
      ∀ l ∈ ls, ∃ L ∈ links, l.srcDevice = L.1.1 ∧ l.tgtDevice = L.2.1 ∧
        dget idMap L.1.1 = some l.source ∧ dget idMap L.2.1 = some l.target := by
  intro links
  induction links with
  | nil =>
    intro i _
    exact ⟨[], rfl, rfl, by simp⟩
  | cons L rest ih =>
    intro i hall
    obtain ⟨s, hs⟩ := Option.isSome_iff_exists.mp (hall L (List.mem_cons_self L rest)).1
    obtain ⟨t, ht⟩ := Option.isSome_iff_exists.mp (hall L (List.mem_cons_self L rest)).2
    obtain ⟨ls, hls, hmap, hmem⟩ :=
      ih (i + 1) (fun L' hL' => hall L' (List.mem_cons_of_mem L hL'))
    refine ⟨{ id := i, source := s, target := t,
              srcIfName := if_shortname L.1.2, srcDevice := L.1.1,
              tgtIfName := if_shortname L.2.2, tgtDevice := L.2.1 } :: ls, ?_, ?_, ?_⟩
    · rw [buildLinks, hs, ht, hls]
    · show i :: ls.map Link.id = natsFrom i (rest.length + 1)
      rw [hmap]
      rfl
    · intro l hl
      rcases List.mem_cons.mp hl with h1 | h2
      · subst h1
        exact ⟨L, List.mem_cons_self L rest, rfl, rfl, hs, ht⟩
      · obtain ⟨L', hL', p1, p2, p3, p4⟩ := hmem l h2
        exact ⟨L', List.mem_cons_of_mem L hL', p1, p2, p3, p4⟩

/-- The topology builder succeeds and produces dense 0-based node and link
ids with links referencing nodes, whenever the host list is duplicate-free
and every link endpoint device is in it. -/
theorem generate_ok (hosts : List String) (links : List LinkT)
    (caps : List (String × String)) (facts : List (String × FactsEntry))
    (hn : hosts.Nodup) (he : ∀ L ∈ links, L.1.1 ∈ hosts ∧ L.2.1 ∈ hosts) :
    ∃ t, generate_topology_json hosts links caps facts = some t ∧
      t.nodes = buildNodes caps facts hosts 0 ∧
      t.nodes.map Node.id = List.range hosts.length ∧
      t.links.map Link.id = List.range links.length ∧
      t.nodes.length = hosts.length ∧ t.links.length = links.length ∧
      ∀ l ∈ t.links, (∃ n ∈ t.nodes, n.name = l.srcDevice ∧ n.id = l.source) ∧
        (∃ n ∈ t.nodes, n.name = l.tgtDevice ∧ n.id = l.target) := by
  have hall : ∀ L ∈ links, (dget (buildIdMap hosts) L.1.1).isSome ∧
      (dget (buildIdMap hosts) L.2.1).isSome := by
    intro L hL
    obtain ⟨j1, hj1, _⟩ := buildIdMap_dget hn (he L hL).1
    obtain ⟨j2, hj2, _⟩ := buildIdMap_dget hn (he L hL).2
    exact ⟨by simp [hj1], by simp [hj2]⟩
  obtain ⟨ls, hls, hmap, hmem⟩ := buildLinks_ok (buildIdMap hosts) links 0 hall
  refine ⟨{ nodes := buildNodes caps facts hosts 0, links := ls }, ?_, rfl, ?_, ?_, ?_, ?_, ?_⟩
  · rw [generate_topology_json, hls]
  · rw [buildNodes_map_id, natsFrom_zero]
  · show ls.map Link.id = _
    rw [hmap, natsFrom_zero]
  · show (buildNodes caps facts hosts 0).length = hosts.length
    have := congrArg List.length (buildNodes_map_id caps facts hosts 0)
    simpa [natsFrom_length] using this
  · show ls.length = links.length
    have := congrArg List.length hmap
    simpa [natsFrom_length] using this
  · intro l hl
    obtain ⟨L, hL, p1, p2, p3, p4⟩ := hmem l hl
    obtain ⟨j1, hj1, hg1⟩ := buildIdMap_dget hn (he L hL).1
    obtain ⟨j2, hj2, hg2⟩ := buildIdMap_dget hn (he L hL).2
    have e1 : j1 = l.source := by
      rw [hj1] at p3
      exact Option.some.inj p3
    have e2 : j2 = l.target := by
      rw [hj2] at p4
      exact Option.some.inj p4
    have hg1' : hosts.get? l.source = some L.1.1 := e1 ▸ hg1
    have hg2' : hosts.get? l.target = some L.2.1 := e2 ▸ hg2
    constructor
    · have hb := buildNodes_get? caps facts hosts 0 l.source L.1.1 hg1'
      refine ⟨mkNode caps facts (0 + l.source) L.1.1, List.get?_mem hb, ?_, ?_⟩
      · simpa [mkNode] using p1.symm
      · simp [mkNode]
    · have hb := buildNodes_get? caps facts hosts 0 l.target L.2.1 hg2'
      refine ⟨mkNode caps facts (0 + l.target) L.2.1, List.get?_mem hb, ?_, ?_⟩
      · simpa [mkNode] using p2.symm
      · simp [mkNode]

theorem procNeighbors_links (host iface : String) :
    ∀ (nbrs : List NeighborRecord) (st st' : ExtractState),
      procNeighbors host iface st nbrs = some st' →
      ∀ l ∈ st'.links, l ∈ st.links ∨ ∃ nbr ∈ nbrs,
        l = ((host, iface), (nbr.remote_system_name, if_fullname nbr.remote_port)) := by
  intro nbrs
  induction nbrs with
  | nil =>
    intro st st' h l hl
    cases h
    exact Or.inl hl
  | cons nbr rest ih =>
    intro st st' h l hl
    by_cases hname : nbr.remote_system_name = ""
    · rw [procNeighbors, if_pos hname] at h
      rcases ih st st' h l hl with h1 | ⟨n, hn, he⟩
      · exact Or.inl h1
      · exact Or.inr ⟨n, List.mem_cons_of_mem _ hn, he⟩
    · cases hcap : nbr.remote_system_enable_capab with
      | nil =>
        rw [procNeighbors, if_neg hname, hcap] at h
        cases h
      | cons cap caps' =>
        rw [procNeighbors, if_neg hname, hcap] at h
        rcases ih _ st' h l hl with h1 | ⟨n, hn, he⟩
        · rcases dedupAppend_mem h1 with h2 | h3
          · exact Or.inl h2
          · exact Or.inr ⟨nbr, List.mem_cons_self _ _, h3⟩
        · exact Or.inr ⟨n, List.mem_cons_of_mem _ hn, he⟩

theorem procIfaces_links (host : String) :
    ∀ (lldp : LldpOfHost) (st st' : ExtractState),
      procIfaces host st lldp = some st' →
      ∀ l ∈ st'.links, l ∈ st.links ∨ ∃ p ∈ lldp, ∃ nbr ∈ p.2,
        l = ((host, p.1), (nbr.remote_system_name, if_fullname nbr.remote_port)) := by
  intro lldp
  induction lldp with
  | nil =>
    intro st st' h l hl
    cases h
    exact Or.inl hl
  | cons p rest ih =>
    intro st st' h l hl
    rw [procIfaces] at h
    cases hn : procNeighbors host p.1 st p.2 with
    | none => rw [hn] at h; cases h
    | some st1 =>
      rw [hn] at h
      rcases ih st1 st' h l hl with h1 | ⟨q, hq, n, hnn, he⟩
      · rcases procNeighbors_links host p.1 p.2 st st1 hn l h1 with h2 | ⟨n, hnn, he⟩
        · exact Or.inl h2
        · exact Or.inr ⟨p, List.mem_cons_self _ _, n, hnn, he⟩
      · exact Or.inr ⟨q, List.mem_cons_of_mem _ hq, n, hnn, he⟩

theorem procHosts_links :
    ∀ (input : LldpInput) (st st' : ExtractState),
      procHosts st input = some st' →
      ∀ l ∈ st'.links, l ∈ st.links ∨ ∃ q ∈ input, ∃ p ∈ q.2, ∃ nbr ∈ p.2,
        l = ((q.1, p.1), (nbr.remote_system_name, if_fullname nbr.remote_port)) := by
  intro input
  induction input with
  | nil =>
    intro st st' h l hl
    cases h
    exact Or.inl hl
  | cons q rest ih =>
    intro st st' h l hl
    by_cases hempty : q.1 = ""
    · rw [procHosts, if_pos hempty] at h
      rcases ih st st' h l hl with h1 | ⟨r, hr, p, hp, n, hnn, he⟩
      · exact Or.inl h1
      · exact Or.inr ⟨r, List.mem_cons_of_mem _ hr, p, hp, n, hnn, he⟩
    · rw [procHosts, if_neg hempty] at h
      cases hpi : procIfaces q.1 { st with hosts := addHost st.hosts q.1 } q.2 with
      | none => rw [hpi] at h; cases h
      | some st1 =>
        rw [hpi] at h
        rcases ih st1 st' h l hl with h1 | ⟨r, hr, p, hp, n, hnn, he⟩
        · rcases procIfaces_links q.1 q.2 _ st1 hpi l h1 with h2 | ⟨p, hp, n, hnn, he⟩
          · exact Or.inl h2
          · exact Or.inr ⟨q, List.mem_cons_self _ _, p, hp, n, hnn, he⟩
        · exact Or.inr ⟨r, List.mem_cons_of_mem _ hr, p, hp, n, hnn, he⟩

/-- Provenance of every extracted link: the local endpoint carries the
reported interface name verbatim, the remote endpoint carries the reported
remote system name with its port canonicalized by `if_fullname`. -/
theorem extract_links_provenance {input : LldpInput} {st : ExtractState}
    (h : extract_lldp_details input = some st) :
    ∀ l ∈ st.links, ∃ q ∈ input, ∃ p ∈ q.2, ∃ nbr ∈ p.2,
      l = ((q.1, p.1), (nbr.remote_system_name, if_fullname nbr.remote_port)) := by
  intro l hl
  rcases procHosts_links input ⟨[], [], []⟩ st h l hl with h1 | h2
  · exact absurd h1 (by simp)
  · exact h2

/-- Input well-formedness that rules out the `remote_system_enable_capab[0]`
IndexError: every neighbor record that survives the empty-name guard has a
nonempty capability list. -/
def WFCapab (input : LldpInput) : Prop :=
  ∀ q ∈ input, ∀ p ∈ q.2, ∀ nbr ∈ p.2,
    nbr.remote_system_name ≠ "" → nbr.remote_system_enable_capab ≠ []

theorem procNeighbors_total (host iface : String) :
    ∀ (nbrs : List NeighborRecord),
      (∀ nbr ∈ nbrs, nbr.remote_system_name ≠ "" → nbr.remote_system_enable_capab ≠ []) →
      ∀ st, ∃ st', procNeighbors host iface st nbrs = some st' := by
  intro nbrs
  induction nbrs with
  | nil => intro _ st; exact ⟨st, rfl⟩
  | cons nbr rest ih =>
    intro hw st
    by_cases hname : nbr.remote_system_name = ""
    · rw [procNeighbors, if_pos hname]
      exact ih (fun n hn => hw n (List.mem_cons_of_mem _ hn)) st
    · cases hcap : nbr.remote_system_enable_capab with
      | nil => exact absurd hcap (hw nbr (List.mem_cons_self _ _) hname)
      | cons cap caps' =>
        rw [procNeighbors, if_neg hname, hcap]
        exact ih (fun n hn => hw n (List.mem_cons_of_mem _ hn)) _

theorem procIfaces_total (host : String) :
    ∀ (lldp : LldpOfHost),
      (∀ p ∈ lldp, ∀ nbr ∈ p.2,
        nbr.remote_system_name ≠ "" → nbr.remote_system_enable_capab ≠ []) →
      ∀ st, ∃ st', procIfaces host st lldp = some st' := by
  intro lldp
  induction lldp with
  | nil => intro _ st; exact ⟨st, rfl⟩
  | cons p rest ih =>
    intro hw st
    obtain ⟨st1, h1⟩ :=
      procNeighbors_total host p.1 p.2 (hw p (List.mem_cons_self _ _)) st
    obtain ⟨st2, h2⟩ := ih (fun q hq => hw q (List.mem_cons_of_mem _ hq)) st1
    refine ⟨st2, ?_⟩
    rw [procIfaces, h1]
    exact h2

theorem procHosts_total :
    ∀ (input : LldpInput), WFCapab input →
      ∀ st, ∃ st', procHosts st input = some st' := by
  intro input
  induction input with
  | nil => intro _ st; exact ⟨st, rfl⟩
  | cons q rest ih =>
    intro hw st
    by_cases hempty : q.1 = ""
    · rw [procHosts, if_pos hempty]
      exact ih (fun r hr => hw r (List.mem_cons_of_mem _ hr)) st
    · obtain ⟨st1, h1⟩ := procIfaces_total q.1 q.2 (hw q (List.mem_cons_self _ _))
        { st with hosts := addHost st.hosts q.1 }
      obtain ⟨st2, h2⟩ := ih (fun r hr => hw r (List.mem_cons_of_mem _ hr)) st1
      refine ⟨st2, ?_⟩
      rw [procHosts, if_neg hempty, h1]
      exact h2

/-- On well-formed input the extractor cannot fail. -/
theorem extract_total {input : LldpInput} (h : WFCapab input) :
    ∃ st, extract_lldp_details input = some st :=
  procHosts_total input h ⟨[], [], []⟩

/-- What claim C5 asserts of one poll entry against the returned maps: a
failed device binds its inventory name to the empty value in both maps, a
successful device binds its resolved identity to its LLDP detail and facts. -/
def bindOK (ln : List (String × LldpOfHost)) (fs : List (String × FactsEntry))
    (p : String × PollOut) : Prop :=
  match p.2 with
  | PollOut.failed => dget ln p.1 = some [] ∧ dget fs p.1 = some FactsEntry.emptyL
  | PollOut.ok fa ld => dget ln (resolveId fa p.1) = some ld ∧
      dget fs (resolveId fa p.1) = some (FactsEntry.facts fa)

instance bindOK_dec (ln : List (String × LldpOfHost)) (fs : List (String × FactsEntry))
    (p : String × PollOut) : Decidable (bindOK ln fs p) :=
  match p with
  | (dev, PollOut.failed) =>
    inferInstanceAs (Decidable (dget ln dev = some [] ∧ dget fs dev = some FactsEntry.emptyL))
  | (dev, PollOut.ok fa ld) =>
    inferInstanceAs (Decidable (dget ln (resolveId fa dev) = some ld ∧
      dget fs (resolveId fa dev) = some (FactsEntry.facts fa)))

/-- Claim C5, as stated, over a whole poll-result mapping. -/
def claimC5holds (input : List (String × PollOut)) : Prop :=
  ∀ p ∈ input, bindOK (normalize_result input).1 (normalize_result input).2 p

instance claimC5holds_dec (input : List (String × PollOut)) : Decidable (claimC5holds input) :=
  inferInstanceAs
    (Decidable (∀ p ∈ input, bindOK (normalize_result input).1 (normalize_result input).2 p))

/-- The dict key that `normalize_result` writes for one poll entry. -/
def writtenKey : String × PollOut → String
  | (dev, PollOut.failed) => dev
  | (dev, PollOut.ok fa _) => resolveId fa dev

theorem normGo_frozen : ∀ (rest : List (String × PollOut)) (l : List (String × LldpOfHost))
    (f : List (String × FactsEntry)) (k : String), ¬ k ∈ rest.map writtenKey →
    dget (normGo rest l f).1 k = dget l k ∧ dget (normGo rest l f).2 k = dget f k := by
  intro rest
  induction rest with
  | nil => intro l f k _; exact ⟨rfl, rfl⟩
  | cons p rest' ih =>
    intro l f k hk
    have hk1 : writtenKey p ≠ k := by
      intro e
      exact hk (by simp [e])
    have hk2 : ¬ k ∈ rest'.map writtenKey := by
      intro hm
      exact hk (by simp [hm])
    rcases p with ⟨dev, po⟩
    cases po with
    | failed =>
      have hkd : dev ≠ k := hk1
      obtain ⟨ihl, ihf⟩ := ih (dset l dev []) (dset f dev FactsEntry.emptyL) k hk2
      exact ⟨by rw [normGo, ihl, dget_dset_ne l _ hkd],
             by rw [normGo, ihf, dget_dset_ne f _ hkd]⟩
    | ok fa ld =>
      have hkd : resolveId fa dev ≠ k := hk1
      obtain ⟨ihl, ihf⟩ :=
        ih (dset l (resolveId fa dev) ld) (dset f (resolveId fa dev) (FactsEntry.facts fa)) k hk2
      exact ⟨by rw [normGo, ihl, dget_dset_ne l _ hkd],
             by rw [normGo, ihf, dget_dset_ne f _ hkd]⟩

theorem normGo_binds : ∀ (input : List (String × PollOut)) (l : List (String × LldpOfHost))
    (f : List (String × FactsEntry)), (input.map writtenKey).Nodup →
    ∀ p ∈ input, bindOK (normGo input l f).1 (normGo input l f).2 p := by
  intro input
  induction input with
  | nil => intro l f _ p hp; cases hp
  | cons q rest ih =>
    intro l f hn p hp
    have hn' : (writtenKey q :: rest.map writtenKey).Nodup := by simpa using hn
    rw [List.nodup_cons] at hn'
    rcases q with ⟨dev, po⟩
    rcases List.mem_cons.mp hp with hq | hrest
    · subst hq
      cases po with
      | failed =>
        obtain ⟨hl, hf⟩ := normGo_frozen rest (dset l dev []) (dset f dev FactsEntry.emptyL)
          dev hn'.1
        exact ⟨by rw [normGo, hl, dget_dset_self], by rw [normGo, hf, dget_dset_self]⟩
      | ok fa ld =>
        obtain ⟨hl, hf⟩ := normGo_frozen rest (dset l (resolveId fa dev) ld)
          (dset f (resolveId fa dev) (FactsEntry.facts fa)) (resolveId fa dev) hn'.1
        exact ⟨by rw [normGo, hl, dget_dset_self], by rw [normGo, hf, dget_dset_self]⟩
    · cases po with
      | failed => exact ih _ _ hn'.2 p hrest
      | ok fa ld => exact ih _ _ hn'.2 p hrest

/-- Both endpoints of one physical adjacency report it, each with an
abbreviated local interface name. -/
def exBoth : LldpInput :=
  [("A", [("Gi0/1", [⟨"B", "Gi0/2", ["switch"]⟩])]),
   ("B", [("Gi0/2", [⟨"A", "Gi0/1", ["router"]⟩])])]

/-- The extractor output on `exBoth`. -/
def stBoth : ExtractState :=
  ⟨["A", "B"],
   [(("A", "Gi0/1"), ("B", "GigabitEthernet0/2")),
    (("B", "Gi0/2"), ("A", "GigabitEthernet0/1"))],
   [("B", "switch"), ("A", "router")]⟩

/-- Both endpoints report one adjacency with long-form names throughout, so
the second report is deduplicated. -/
def exDup : LldpInput :=
  [("A", [("GigabitEthernet0/1", [⟨"B", "GigabitEthernet0/2", ["switch"]⟩])]),
   ("B", [("GigabitEthernet0/2", [⟨"A", "GigabitEthernet0/1", ["router"]⟩])])]

/-- The extractor output on `exDup`: a single link survives. -/
def stDup : ExtractState :=
  ⟨["A", "B"],
   [(("A", "GigabitEthernet0/1"), ("B", "GigabitEthernet0/2"))],
   [("B", "switch"), ("A", "router")]⟩

/-- A conforming input whose neighbor record advertises no capability. -/
def exNoCapab : LldpInput := [("A", [("Gi0/1", [⟨"B", "Gi0/2", []⟩])])]

theorem buildNodes_mem (caps : List (String × String)) (facts : List (String × FactsEntry)) :
    ∀ (hosts : List String) (i : Nat) (n : Node), n ∈ buildNodes caps facts hosts i →
      ∃ j h', n = mkNode caps facts j h' := by
  intro hosts
  induction hosts with
  | nil => intro i n hn; cases hn
  | cons a rest ih =>
    intro i n hn
    rcases List.mem_cons.mp hn with h1 | h2
    · exact ⟨i, a, h1⟩
    · exact ih (i + 1) n h2

theorem get_icon_type_default {c : String} (h1 : c ≠ "router") (h2 : c ≠ "switch")
    (h3 : c ≠ "bridge") (h4 : c ≠ "station") : get_icon_type c = "unknown" := by
  rw [get_icon_type, dgetD, icon_type_map, dget, if_neg (Ne.symm h1), dget,
    if_neg (Ne.symm h2), dget, if_neg (Ne.symm h3), dget, if_neg (Ne.symm h4), dget]
  rfl

/-- Link endpoints with both interface names canonicalized to long form —
the identity of the underlying physical adjacency. -/
def canonLink (l : LinkT) : LinkT :=
  ((l.1.1, if_fullname l.1.2), (l.2.1, if_fullname l.2.2))

/-- What claim C8 asserts of an extractor result: both endpoints' interface
names are already in canonical long form. -/
def bothEndsCanonical (st : ExtractState) : Prop :=
  ∀ l ∈ st.links, if_fullname l.1.2 = l.1.2 ∧ if_fullname l.2.2 = l.2.2

/-- C1: link deduplication in the topology extractor is symmetric — in every
link list built by `extract_lldp_details`, no two entries are equal in
either endpoint order (comparing device identity and interface name
exactly), so exactly one link remains per recorded endpoint pair; a later
candidate equal to a recorded link in either order was discarded. -/
theorem c1_link_dedup_symmetric (input : LldpInput) (st : ExtractState)
    (h : extract_lldp_details input = some st) :
    List.Pairwise (fun a b => a ≠ b ∧ a ≠ (b.2, b.1)) st.links :=
  (extract_inv h).2.2

theorem c1_link_dedup_symmetric_witness :
    extract_lldp_details exDup = some stDup ∧
      List.Pairwise (fun a b => a ≠ b ∧ a ≠ (b.2, b.1)) stDup.links :=
  ⟨by decide, c1_link_dedup_symmetric exDup stDup (by decide)⟩

/-- C2: `get_topology_diff` identifies nodes purely by their `name` field
and links by their endpoint pair with symmetric matching: a name is in
`added` iff it names a node of the current snapshot and no node of the
previous one; a link key is in `added` iff it is a link key of the current
snapshot absent from the previous one in both endpoint orders; `deleted`
mirrors this with the snapshots exchanged. -/
theorem c2_diff_membership (cached current : Topology) :
    (∀ name, name ∈ (get_topology_diff cached current).1.added ↔
      name ∈ nodeNames current ∧ ¬ name ∈ nodeNames cached) ∧
    (∀ name, name ∈ (get_topology_diff cached current).1.deleted ↔
      name ∈ nodeNames cached ∧ ¬ name ∈ nodeNames current) ∧
    (∀ p : LinkT, p ∈ (get_topology_diff cached current).2.added ↔
      p ∈ linkKeys current ∧ ¬ p ∈ linkKeys cached ∧ ¬ (p.2, p.1) ∈ linkKeys cached) ∧
    (∀ p : LinkT, p ∈ (get_topology_diff cached current).2.deleted ↔
      p ∈ linkKeys cached ∧ ¬ p ∈ linkKeys current ∧ ¬ (p.2, p.1) ∈ linkKeys current) := by
  refine ⟨fun name => ?_, fun name => ?_, fun p => ?_, fun p => ?_⟩ <;>
    simp [get_topology_diff, List.mem_filter, and_assoc]

/-- C3: the diff engine is symmetric under argument swap — on both nodes
and links, the `added` component of `get_topology_diff prev curr` is
exactly the `deleted` component of `get_topology_diff curr prev`, and vice
versa. -/
theorem c3_diff_swap_symmetry (prev curr : Topology) :
    (get_topology_diff prev curr).1.added = (get_topology_diff curr prev).1.deleted ∧
    (get_topology_diff prev curr).1.deleted = (get_topology_diff curr prev).1.added ∧
    (get_topology_diff prev curr).2.added = (get_topology_diff curr prev).2.deleted ∧
    (get_topology_diff prev curr).2.deleted = (get_topology_diff curr prev).2.added :=
  ⟨rfl, rfl, rfl, rfl⟩

/-- C4: on every extractor output (with any facts dict), the topology
builder succeeds — the `host_id_map` lookup never fails, because the
extractor put every link endpoint device into the host set — and assigns
node ids `0..n-1` in host-enumeration order, link ids `0..m-1` in
link-list order, and every link's source/target ids and device names
reference nodes present in the node list. -/
theorem c4_ids_dense_and_refs (input : LldpInput) (facts : List (String × FactsEntry))
    (st : ExtractState) (h : extract_lldp_details input = some st) :
    ∃ t, generate_topology_json st.hosts st.links st.caps facts = some t ∧
      t.nodes.map Node.id = List.range st.hosts.length ∧
      t.links.map Link.id = List.range st.links.length ∧
      t.nodes.length = st.hosts.length ∧ t.links.length = st.links.length ∧
      ∀ l ∈ t.links, (∃ n ∈ t.nodes, n.name = l.srcDevice ∧ n.id = l.source) ∧
        (∃ n ∈ t.nodes, n.name = l.tgtDevice ∧ n.id = l.target) := by
  obtain ⟨hn, he, _⟩ := extract_inv h
  obtain ⟨t, h1, _, h3, h4, h5, h6, h7⟩ := generate_ok st.hosts st.links st.caps facts hn he
  exact ⟨t, h1, h3, h4, h5, h6, h7⟩

theorem c4_ids_dense_and_refs_witness :
    extract_lldp_details exBoth = some stBoth ∧
    ∃ t, generate_topology_json stBoth.hosts stBoth.links stBoth.caps [] = some t ∧
      t.nodes.map Node.id = List.range stBoth.hosts.length ∧
      t.links.map Link.id = List.range stBoth.links.length ∧
      t.nodes.length = stBoth.hosts.length ∧ t.links.length = stBoth.links.length ∧
      ∀ l ∈ t.links, (∃ n ∈ t.nodes, n.name = l.srcDevice ∧ n.id = l.source) ∧
        (∃ n ∈ t.nodes, n.name = l.tgtDevice ∧ n.id = l.target) :=
  ⟨by decide, c4_ids_dense_and_refs exBoth [] stBoth (by decide)⟩

def factsX : Facts := ⟨"X", "", none, none⟩

/-- A successful device whose FQDN collides with the inventory name of a
device (processed later) that failed collection. -/
def exCollide : List (String × PollOut) :=
  [("A", PollOut.ok factsX [("Gi0/1", [])]), ("X", PollOut.failed)]

/-- C5 counterexample: on `exCollide`, the failed device `"X"` overwrites
the binding the successful device `"A"` made under its resolved identity
`"X"` (last write wins), so the successful device's LLDP detail and facts
are no longer bound, refuting the claim as stated. -/
theorem c5_counterexample : ¬ claimC5holds exCollide := by decide

/-- C5 (amended): provided the written keys — resolved identities of
successful devices and inventory names of failed ones — are pairwise
distinct, `normalize_result` binds, for each failed device, the inventory
name to the empty value in both maps, and for each successful device its
facts and LLDP detail under fqdn-else-hostname-else-inventory-name. -/
theorem c5_normalize_binds_amended (input : List (String × PollOut))
    (h : (input.map writtenKey).Nodup) : claimC5holds input :=
  fun p hp => normGo_binds input [] [] h p hp

def factsA : Facts := ⟨"a.example", "", some "X", some "1"⟩

def exPoll : List (String × PollOut) :=
  [("A", PollOut.ok factsA [("Gi0/1", [⟨"B", "Gi0/2", ["switch"]⟩])]),
   ("B", PollOut.failed)]

theorem c5_normalize_binds_amended_witness :
    (exPoll.map writtenKey).Nodup ∧ claimC5holds exPoll :=
  ⟨by decide, c5_normalize_binds_amended exPoll (by decide)⟩

/-- C6: every node of a built topology gets its icon from the capability
code its neighbors reported for it: `router`, `switch`, `bridge`, `station`
map to `router`, `switch`, `switch`, `host`, and any other or missing code
— in particular a device never named as anyone's neighbor, hence absent
from the capability dict — yields `unknown`. -/
theorem c6_icon_classification (hosts : List String) (links : List LinkT)
    (caps : List (String × String)) (facts : List (String × FactsEntry)) (t : Topology)
    (h : generate_topology_json hosts links caps facts = some t) :
    ∀ n ∈ t.nodes,
      (dget caps n.name = some "router" → n.icon = "router") ∧
      (dget caps n.name = some "switch" → n.icon = "switch") ∧
      (dget caps n.name = some "bridge" → n.icon = "switch") ∧
      (dget caps n.name = some "station" → n.icon = "host") ∧
      (dget caps n.name = none → n.icon = "unknown") ∧
      (∀ c, dget caps n.name = some c → c ≠ "router" → c ≠ "switch" → c ≠ "bridge" →
        c ≠ "station" → n.icon = "unknown") := by
  intro n hn
  have hnodes : t.nodes = buildNodes caps facts hosts 0 := by
    cases hbl : buildLinks (buildIdMap hosts) links 0 with
    | none => rw [generate_topology_json, hbl] at h; cases h
    | some ls =>
      rw [generate_topology_json, hbl] at h
      cases h
      rfl
  rw [hnodes] at hn
  obtain ⟨j, h', rfl⟩ := buildNodes_mem caps facts hosts 0 n hn
  have hname : (mkNode caps facts j h').name = h' := rfl
  have hicon : (mkNode caps facts j h').icon = get_icon_type (dgetD caps h' "") := rfl
  rw [hname, hicon]
  refine ⟨fun hc => ?_, fun hc => ?_, fun hc => ?_, fun hc => ?_, fun hc => ?_,
    fun c hc h1 h2 h3 h4 => ?_⟩
  · rw [dgetD, hc]; rfl
  · rw [dgetD, hc]; rfl
  · rw [dgetD, hc]; rfl
  · rw [dgetD, hc]; rfl
  · rw [dgetD, hc]; rfl
  · rw [dgetD, hc]
    exact get_icon_type_default h1 h2 h3 h4

def capsW : List (String × String) := [("B", "switch")]

def tW : Topology :=
  ⟨[⟨0, "A", "n/a", "n/a", "unknown"⟩, ⟨1, "B", "n/a", "n/a", "switch"⟩], []⟩

theorem c6_icon_classification_witness :
    generate_topology_json ["A", "B"] [] capsW [] = some tW ∧
    ∀ n ∈ tW.nodes,
      (dget capsW n.name = some "router" → n.icon = "router") ∧
      (dget capsW n.name = some "switch" → n.icon = "switch") ∧
      (dget capsW n.name = some "bridge" → n.icon = "switch") ∧
      (dget capsW n.name = some "station" → n.icon = "host") ∧
      (dget capsW n.name = none → n.icon = "unknown") ∧
      (∀ c, dget capsW n.name = some c → c ≠ "router" → c ≠ "switch" → c ≠ "bridge" →
        c ≠ "station" → n.icon = "unknown") :=
  ⟨by decide, c6_icon_classification ["A", "B"] [] capsW [] tW (by decide)⟩

/-- C7 counterexample: `"GigabitEthernet0/1"` already starts with a long
form of the table (and with the short prefix `"Gi"`), yet the round trip
returns `"Gi0/1"`, not the input — refuting the claimed identity for
inputs already in long form. -/
theorem c7_counterexample :
    ("Gi", "GigabitEthernet") ∈ interface_full_name_map ∧
    "GigabitEthernet".data <+: "GigabitEthernet0/1".data ∧
    "Gi".data <+: "GigabitEthernet0/1".data ∧
    if_shortname (if_fullname "GigabitEthernet0/1") ≠ "GigabitEthernet0/1" := by
  refine ⟨by decide, by decide, by decide, by decide⟩

/-- C7 (amended): the round trip `if_shortname (if_fullname x) = x` holds
for every `x` that starts with a short prefix of the table and does not
start with the corresponding long form; for an `x` already starting with a
long form, `if_fullname` leaves it unchanged (so the round trip returns
`if_shortname x`, which differs from `x` exactly when the abbreviation
does). -/
theorem c7_roundtrip_amended :
    (∀ p ∈ interface_full_name_map, ∀ s : String,
      p.1.data <+: s.data → ¬ p.2.data <+: s.data → if_shortname (if_fullname s) = s) ∧
    (∀ p ∈ interface_full_name_map, ∀ s : String,
      p.2.data <+: s.data → if_fullname s = s) := by
  constructor
  · intro p hp s hk hnv
    have hp' : p = ("Eth", "Ethernet") ∨ p = ("Fa", "FastEthernet") ∨
        p = ("Gi", "GigabitEthernet") ∨ p = ("Te", "TenGigabitEthernet") := by
      simpa [interface_full_name_map] using hp
    rcases hp' with rfl | rfl | rfl | rfl
    · exact roundtrip_Eth hk hnv
    · exact roundtrip_Fa hk hnv
    · exact roundtrip_Gi hk hnv
    · exact roundtrip_Te hk hnv
  · exact fullname_fixes_longform

theorem c7_roundtrip_amended_witness :
    (("Gi", "GigabitEthernet") ∈ interface_full_name_map ∧
      "Gi".data <+: "Gi0/1".data ∧ ¬ "GigabitEthernet".data <+: "Gi0/1".data ∧
      if_shortname (if_fullname "Gi0/1") = "Gi0/1") ∧
    ("Ethernet".data <+: "Ethernet0/1".data ∧ if_fullname "Ethernet0/1" = "Ethernet0/1") :=
  ⟨⟨by decide, by decide, by decide,
    c7_roundtrip_amended.1 ("Gi", "GigabitEthernet") (by decide) "Gi0/1"
      (by decide) (by decide)⟩,
   ⟨by decide,
    c7_roundtrip_amended.2 ("Eth", "Ethernet") (by decide) "Ethernet0/1" (by decide)⟩⟩

instance bothEndsCanonical_dec (st : ExtractState) : Decidable (bothEndsCanonical st) :=
  inferInstanceAs
    (Decidable (∀ l ∈ st.links, if_fullname l.1.2 = l.1.2 ∧ if_fullname l.2.2 = l.2.2))

instance WFCapab_dec (input : LldpInput) : Decidable (WFCapab input) :=
  inferInstanceAs (Decidable (∀ q ∈ input, ∀ p ∈ q.2, ∀ nbr ∈ p.2,
    nbr.remote_system_name ≠ "" → nbr.remote_system_enable_capab ≠ []))

/-- C8 counterexample: on `exBoth` the extractor stores link
`(("A","Gi0/1"), ("B","GigabitEthernet0/2"))` — the local endpoint's
interface name `"Gi0/1"` is kept as reported, not canonicalized to long
form, refuting the claim that both endpoints are stored in long form. -/
theorem c8_counterexample :
    extract_lldp_details exBoth = some stBoth ∧ ¬ bothEndsCanonical stBoth := by
  refine ⟨by decide, by decide⟩

/-- C8 (amended): only the remote endpoint's interface name is
canonicalized: every link produced by the extractor is exactly
`((host, localInterfaceAsReported), (remoteName, if_fullname remotePort))`
for some neighbor record of the input. -/
theorem c8_remote_canonical_amended (input : LldpInput) (st : ExtractState)
    (h : extract_lldp_details input = some st) :
    ∀ l ∈ st.links, ∃ q ∈ input, ∃ p ∈ q.2, ∃ nbr ∈ p.2,
      l = ((q.1, p.1), (nbr.remote_system_name, if_fullname nbr.remote_port)) :=
  extract_links_provenance h

theorem c8_remote_canonical_amended_witness :
    extract_lldp_details exBoth = some stBoth ∧
    ∀ l ∈ stBoth.links, ∃ q ∈ exBoth, ∃ p ∈ q.2, ∃ nbr ∈ p.2,
      l = ((q.1, p.1), (nbr.remote_system_name, if_fullname nbr.remote_port)) :=
  ⟨by decide, c8_remote_canonical_amended exBoth stBoth (by decide)⟩

/-- C9 counterexample: a shape-conforming input whose neighbor record has
an empty `remote_system_enable_capab` list makes `extract_lldp_details`
fail (the Python code raises IndexError at
`remote_system_enable_capab[0]`), refuting the claimed totality of the
core pipeline. -/
theorem c9_counterexample : extract_lldp_details exNoCapab = none := by decide

/-- C9 (amended): the pipeline is total provided every neighbor record with
a non-empty remote system name advertises at least one capability: the
extractor then succeeds, and on its output the builder succeeds for any
facts dict (`normalize_result` and `get_topology_diff` are total
unconditionally, being plain functions of this embedding). -/
theorem c9_total_amended (input : LldpInput) (facts : List (String × FactsEntry))
    (h : WFCapab input) :
    ∃ st, extract_lldp_details input = some st ∧
      ∃ t, generate_topology_json st.hosts st.links st.caps facts = some t := by
  obtain ⟨st, hst⟩ := extract_total h
  obtain ⟨hn, he, _⟩ := extract_inv hst
  obtain ⟨t, h1, _⟩ := generate_ok st.hosts st.links st.caps facts hn he
  exact ⟨st, hst, t, h1⟩

theorem c9_total_amended_witness :
    WFCapab exBoth ∧ ∃ st, extract_lldp_details exBoth = some st ∧
      ∃ t, generate_topology_json st.hosts st.links st.caps [] = some t :=
  ⟨by decide, c9_total_amended exBoth [] (by decide)⟩

/-- C10: one physical adjacency reported by both of its endpoints, each
using an abbreviated local interface name, yields two distinct entries in
the extractor's link list — the entries differ as stored (so the dedup
check misses them), yet after canonicalizing both interface names each is
the endpoint-swap of the other, i.e. the same physical adjacency. -/
theorem c10_duplicate_adjacency :
    extract_lldp_details exBoth = some stBoth ∧
    stBoth.links = [(("A", "Gi0/1"), ("B", "GigabitEthernet0/2")),
                    (("B", "Gi0/2"), ("A", "GigabitEthernet0/1"))] ∧
    ((("A", "Gi0/1"), ("B", "GigabitEthernet0/2")) : LinkT) ≠
      ((("B", "Gi0/2"), ("A", "GigabitEthernet0/1")) : LinkT) ∧
    ((("A", "Gi0/1"), ("B", "GigabitEthernet0/2")) : LinkT) ≠
      ((("A", "GigabitEthernet0/1"), ("B", "Gi0/2")) : LinkT) ∧
    canonLink (("A", "Gi0/1"), ("B", "GigabitEthernet0/2")) =
      ((canonLink (("B", "Gi0/2"), ("A", "GigabitEthernet0/1"))).2,
       (canonLink (("B", "Gi0/2"), ("A", "GigabitEthernet0/1"))).1) := by
  refine ⟨by decide, by decide, by decide, by decide, by decide⟩
